import Mathlib

/-!
Shallow embedding of the musicbytes core (src/lib.rs together with the
pitch-mapping callback of src/main.rs): the bitstream-to-note decoder and
the tone synthesizer model. Rust u8/u32 integers are modelled as Nat, with
an explicit mod 256 where the u8 shift could overflow; f32 arithmetic is
modelled exactly, over ℚ where the source only forms rationals and over ℝ
for the transcendental frequency and waveform math; the narrowing casts
written as-u32 and as-i16 in the source are modelled by truncation toward
zero of a nonnegative value, that is the floor.
-/

namespace Musicbytes

/-- Constant MIN_FILE_SIZE from src/lib.rs line 10. -/
def MIN_FILE_SIZE : Nat := 15

/-- Constant BITS_PER_NOTE from src/lib.rs line 11. -/
def BITS_PER_NOTE : Nat := 18

/-- Constant BASE_PITCH from src/lib.rs line 13. -/
def BASE_PITCH : ℝ := 69

/-- Constant BASE_FREQUENCY from src/lib.rs line 14. -/
def BASE_FREQUENCY : ℝ := 400

/-- Constant SAMPLING_RATE from src/lib.rs line 17. -/
def SAMPLING_RATE : Nat := 44100

/-- The nine duration categories of src/lib.rs lines 28-39. -/
inductive Duration where
  | Double
  | Whole
  | Half
  | Quarter
  | Eighth
  | Sixteenth
  | ThirtySecond
  | SixtyFourth
  | HundredTwentyEighth
deriving DecidableEq

/-- The decoded tone of src/lib.rs lines 62-68: raw pitch as stored, the
duration category, the f32 volume (a dyadic rational, exact in ℚ) and the
f32 frequency in Hz (modelled in ℝ). -/
structure Tone where
  pitch : Nat
  duration : Duration
  volume : ℚ
  frequency : ℝ

/-- The decoded melody of src/lib.rs lines 22-26. -/
structure Melody where
  bpm : Nat
  units : List Tone

/-- The error cases of map_to_notes: the explicit file-size check of
src/lib.rs lines 229-239 and any io failure of the underlying bit reads. -/
inductive DecodeError where
  | FileTooSmall
  | IOError
deriving DecidableEq

/-- Models impl From (u8) for Duration, src/lib.rs lines 70-85: raw values
0 to 8 map directly, every other value recurses on raw % 9. -/
def Duration.fromRaw : Nat → Duration
  | 0 => .Double
  | 1 => .Whole
  | 2 => .Half
  | 3 => .Quarter
  | 4 => .Eighth
  | 5 => .Sixteenth
  | 6 => .ThirtySecond
  | 7 => .SixtyFourth
  | 8 => .HundredTwentyEighth
  | n + 9 => Duration.fromRaw ((n + 9) % 9)
termination_by n => n
decreasing_by omega

/-- The frequency computation of Tone::new, src/lib.rs line 114:
BASE_FREQUENCY * 2 ^ ((pitch - BASE_PITCH) / 12), with the real power. -/
noncomputable def frequency_of (pitch : Nat) : ℝ :=
  BASE_FREQUENCY * (2 : ℝ) ^ (((pitch : Nat) - BASE_PITCH : ℝ) / 12)

/-- Models Tone::new, src/lib.rs lines 112-130. Note that the duration is
selected by dur % 4 from Half, Quarter, Eighth, Sixteenth; Duration.fromRaw
is not used here. The volume vol / 256.0 is exact in f32 and in ℚ. -/
noncomputable def Tone.new (pitch dur vol : Nat) : Tone where
  pitch := pitch
  duration :=
    match dur % 4 with
    | 0 => .Half
    | 1 => .Quarter
    | 2 => .Eighth
    | _ => .Sixteenth
  volume := (vol : ℚ) / 256
  frequency := frequency_of pitch

/-- Models the c_major callback of src/main.rs lines 67-79. -/
noncomputable def c_major (pitch dur vol : Nat) : Tone :=
  Tone.new
    (match pitch % 6 with
     | 0 => 60
     | 1 => 62
     | 2 => 64
     | 3 => 65
     | 4 => 67
     | 5 => 69
     | _ => 60)
    dur vol

/-- Modelled from the spec: the bitwise crate providing BitReader is not
part of this repository; per the spec the source file is treated as a
continuous bit sequence, most significant bit first within each byte. -/
def byteToBits (b : Nat) : List Bool :=
  [b.testBit 7, b.testBit 6, b.testBit 5, b.testBit 4,
   b.testBit 3, b.testBit 2, b.testBit 1, b.testBit 0]

/-- The whole file as a bit sequence, bytes in order. -/
def bytesToBits (bytes : List Nat) : List Bool :=
  bytes.flatMap byteToBits

/-- Modelled from the spec: BitReader::read_multi n consumes the next n
bits of the stream in order; when fewer than n bits remain the read fails
with an io error, modelled as none. -/
def read_multi (n : Nat) (bits : List Bool) : Option (List Bool × List Bool) :=
  if n ≤ bits.length then some (bits.take n, bits.drop n) else none

/-- The loop of pack_to_byte, src/lib.rs lines 274-280, after the initial
reverse: while count < 8 and the vector is nonempty, shift the u8 left by
one (mod 256), pop the last element and or it in. The fuel argument is
8 - count. -/
def packGo : Nat → List Bool → Nat → Nat
  | 0, _, byte => byte
  | _ + 1, [], byte => byte
  | fuel + 1, b :: bs, byte =>
      packGo fuel ((b :: bs).dropLast)
        ((2 * byte % 256) ||| ((b :: bs).getLast (List.cons_ne_nil b bs)).toNat)

/-- Models pack_to_byte, src/lib.rs lines 269-283: reverse the bit vector,
then shift-and-or at most 8 bits popped from its end. -/
def pack_to_byte (bits : List Bool) : Nat :=
  packGo 8 bits.reverse 0

/-- The tempo computation applied to the packed tempo byte,
src/lib.rs line 243: raw % 120 + 120. -/
def bpm_of_raw (raw : Nat) : Nat :=
  raw % 120 + 120

/-- The while loop of map_to_notes, src/lib.rs lines 246-261: while
counter + BITS_PER_NOTE <= file_size - 1, read 3 + 4 + 8 bits, pack them,
call the callback, append the tone, and advance the counter by
BITS_PER_NOTE (18) although only 15 bits were consumed from the reader. -/
def noteLoop (to_note : Nat → Nat → Nat → Tone) (file_size : Nat)
    (counter : Nat) (bits : List Bool) (units : List Tone) :
    Except DecodeError (List Tone) :=
  if h : counter + BITS_PER_NOTE ≤ file_size - 1 then
    match read_multi 3 bits with
    | none => .error .IOError
    | some (vec_pitch, b1) =>
      match read_multi 4 b1 with
      | none => .error .IOError
      | some (vec_duration, b2) =>
        match read_multi 8 b2 with
        | none => .error .IOError
        | some (vec_volume, b3) =>
          noteLoop to_note file_size (counter + BITS_PER_NOTE) b3
            (units ++
              [to_note (pack_to_byte vec_pitch) (pack_to_byte vec_duration)
                (pack_to_byte vec_volume)])
  else
    .ok units
termination_by file_size - counter
decreasing_by simp only [BITS_PER_NOTE] at *; omega

/-- Models map_to_notes, src/lib.rs lines 223-264: check the file size in
bits against MIN_FILE_SIZE * 8, read and pack the 8 tempo bits, then run
the note loop from bit offset 8. -/
def map_to_notes (bytes : List Nat) (to_note : Nat → Nat → Nat → Tone) :
    Except DecodeError Melody :=
  let file_size := bytes.length * 8
  if file_size < MIN_FILE_SIZE * 8 then
    .error .FileTooSmall
  else
    match read_multi 8 (bytesToBits bytes) with
    | none => .error .IOError
    | some (vec_bpm, rest) =>
      let bpm := bpm_of_raw (pack_to_byte vec_bpm)
      match noteLoop to_note file_size 8 rest [] with
      | .error e => .error e
      | .ok units => .ok { bpm := bpm, units := units }

/-- A default tone, used only to model the unreachable unwrap in
write_for_arduino (src/lib.rs line 162). -/
noncomputable instance : Inhabited Tone :=
  ⟨⟨0, .Double, 0, 0⟩⟩

/-- The beat multiplier table of time_calc, src/lib.rs lines 204-214.
Every entry is a dyadic rational, exact in f32 and in ℚ. -/
def beats : Duration → ℚ
  | .Double => 8
  | .Whole => 4
  | .Half => 2
  | .Quarter => 1
  | .Eighth => 1 / 2
  | .Sixteenth => 1 / 4
  | .ThirtySecond => 1 / 8
  | .SixtyFourth => 1 / 16
  | .HundredTwentyEighth => 1 / 32

/-- Models time_calc, src/lib.rs lines 201-217: 60 / bpm * beats * 44100,
narrowed with the as-u32 cast, which truncates the nonnegative value toward
zero, so the floor. The f32 products are modelled exactly in ℚ. -/
def time_calc (bpm : Nat) (duration : Duration) : Nat :=
  (⌊60 / (bpm : ℚ) * beats duration * (SAMPLING_RATE : ℚ)⌋).toNat

/-- The as-i16 narrowing cast of Rust on an f32 value: truncation toward
zero, saturating at the i16 bounds. -/
noncomputable def f32_as_i16 (x : ℝ) : ℤ :=
  max (-32768) (min 32767 (if 0 ≤ x then ⌊x⌋ else ⌈x⌉))

/-- The as-u32 narrowing cast of Rust on an f32 value: truncation toward
zero, saturating at the u32 bounds. -/
noncomputable def f32_as_u32 (x : ℝ) : ℕ :=
  (min 4294967295 ⌊x⌋).toNat

/-- Models write_tone, src/lib.rs lines 187-199, as the list of i16 samples
it writes for one tone: time_calc bpm duration many steps, each sample
sin(t * frequency * 2 * pi) scaled by 32767 * volume. -/
noncomputable def write_tone_samples (bpm : Nat) (tone : Tone) : List ℤ :=
  let steps := time_calc bpm tone.duration
  (List.range steps).map (fun (x : ℕ) =>
    f32_as_i16 (Real.sin ((x : ℝ) / (steps : ℝ) * tone.frequency * 2 * Real.pi) *
      (32767 * (tone.volume : ℝ))))

/-- Models the frequency entries emitted by write_for_arduino,
src/lib.rs lines 152-169: one integer Hz value per tone for the first
c tones, where c is the unit count capped at 100. -/
noncomputable def write_for_arduino_freqs (melody : Melody) : List ℕ :=
  let c := if melody.units.length ≤ 100 then melody.units.length else 100
  (List.range c).map (fun tone => f32_as_u32 ((melody.units.getD tone default).frequency))

/-- The nine-entry duration table of the spec, indexed by raw % 9. -/
def durationTable : List Duration :=
  [.Double, .Whole, .Half, .Quarter, .Eighth, .Sixteenth,
   .ThirtySecond, .SixtyFourth, .HundredTwentyEighth]

/-- Modelled from the spec: reading N bits in stream order and interpreting
them as a big-endian N-bit unsigned integer, the first bit read being the
most significant. -/
def big_endian_val (bits : List Bool) : Nat :=
  bits.foldl (fun acc b => 2 * acc + b.toNat) 0

/-- Modelled from the spec: rounding to the nearest integer, used by the
per-tone sample-count formula the spec states. -/
def round_spec (q : ℚ) : ℤ :=
  ⌊q + 1 / 2⌋

/-- A probe callback that records the three raw fields it receives in the
three numeric fields of the returned tone; it is injective in its
arguments, so an equation on its image determines the raw fields. -/
noncomputable def rawProbe (pitch dur vol : Nat) : Tone :=
  ⟨pitch, .Double, (vol : ℚ), (dur : ℝ)⟩

/-! Helper lemmas about the decoder. -/

/-- When the loop guard fails, the note loop returns the accumulated units. -/
theorem noteLoop_exit (f : Nat → Nat → Nat → Tone) (fs counter : Nat)
    (bits : List Bool) (units : List Tone)
    (h : ¬ counter + BITS_PER_NOTE ≤ fs - 1) :
    noteLoop f fs counter bits units = .ok units := by
  rw [noteLoop, dif_neg h]

/-- When the loop guard holds and at least 15 bits remain, one iteration
reads the 3 + 4 + 8 field bits in stream order, appends the mapped tone,
and advances the tracked offset by BITS_PER_NOTE. -/
theorem noteLoop_step (f : Nat → Nat → Nat → Tone) (fs counter : Nat)
    (bits : List Bool) (units : List Tone)
    (h : counter + BITS_PER_NOTE ≤ fs - 1) (hlen : 15 ≤ bits.length) :
    noteLoop f fs counter bits units =
      noteLoop f fs (counter + BITS_PER_NOTE) (bits.drop 15)
        (units ++ [f (pack_to_byte (bits.take 3))
                     (pack_to_byte ((bits.drop 3).take 4))
                     (pack_to_byte ((bits.drop 7).take 8))]) := by
  rw [noteLoop, dif_pos h]
  have h3 : read_multi 3 bits = some (bits.take 3, bits.drop 3) := by
    unfold read_multi; rw [if_pos (by omega)]
  have h4 : read_multi 4 (bits.drop 3) =
      some ((bits.drop 3).take 4, bits.drop 7) := by
    unfold read_multi
    rw [if_pos (by simp; omega)]
    simp [List.drop_drop]
  have h8 : read_multi 8 (bits.drop 7) =
      some ((bits.drop 7).take 8, bits.drop 15) := by
    unfold read_multi
    rw [if_pos (by simp; omega)]
    simp [List.drop_drop]
  simp only [h3, h4, h8]

/-- As long as at least fs - counter bits remain, the note loop never hits
an io error and produces one tone for each full stride of 18 below
fs - 1 - counter. -/
theorem noteLoop_ok (f : Nat → Nat → Nat → Tone) (fs : Nat) :
    ∀ (n counter : Nat) (bits : List Bool) (units : List Tone),
      fs - counter ≤ n → fs - counter ≤ bits.length →
      ∃ us, noteLoop f fs counter bits units = .ok us ∧
        us.length = units.length + (fs - 1 - counter) / 18 := by
  intro n
  induction n with
  | zero =>
    intro counter bits units hn hlen
    have hc : ¬ counter + BITS_PER_NOTE ≤ fs - 1 := by
      simp only [BITS_PER_NOTE]; omega
    refine ⟨units, noteLoop_exit f fs counter bits units hc, ?_⟩
    rw [Nat.div_eq_of_lt (by omega), Nat.add_zero]
  | succ m ih =>
    intro counter bits units hn hlen
    by_cases hc : counter + BITS_PER_NOTE ≤ fs - 1
    · have hc18 : counter + 18 ≤ fs - 1 := by
        simpa only [BITS_PER_NOTE] using hc
      rw [noteLoop_step f fs counter bits units hc (by omega)]
      obtain ⟨us, heq, hlen2⟩ :=
        ih (counter + BITS_PER_NOTE)
          (bits.drop 15)
          (units ++ [f (pack_to_byte (bits.take 3))
                       (pack_to_byte ((bits.drop 3).take 4))
                       (pack_to_byte ((bits.drop 7).take 8))])
          (by simp only [BITS_PER_NOTE]; omega)
          (by simp only [BITS_PER_NOTE, List.length_drop]; omega)
      refine ⟨us, heq, ?_⟩
      simp only [BITS_PER_NOTE, List.length_append, List.length_cons,
        List.length_nil] at hlen2
      omega
    · have hlt : fs - 1 - counter < 18 := by
        simp only [BITS_PER_NOTE] at hc; omega
      refine ⟨units, noteLoop_exit f fs counter bits units hc, ?_⟩
      rw [Nat.div_eq_of_lt hlt, Nat.add_zero]

/-- Each byte contributes exactly 8 bits to the bit stream. -/
theorem bytesToBits_length (bytes : List Nat) :
    (bytesToBits bytes).length = 8 * bytes.length := by
  induction bytes with
  | nil => rfl
  | cons b bs ih =>
    simp only [bytesToBits, List.flatMap_cons, List.length_append] at *
    simp [byteToBits, ih]
    omega

/-- Decoding any source of at least 15 bytes succeeds, the tempo being
derived from the first 8 bits and the unit count being one tone per full
18-bit stride of the loop counter. -/
theorem map_to_notes_ok (bytes : List Nat) (f : Nat → Nat → Nat → Tone)
    (h : 15 ≤ bytes.length) :
    ∃ m, map_to_notes bytes f = .ok m ∧
      m.bpm = bpm_of_raw (pack_to_byte ((bytesToBits bytes).take 8)) ∧
      m.units.length = (8 * bytes.length - 9) / 18 := by
  have hlen : (bytesToBits bytes).length = 8 * bytes.length :=
    bytesToBits_length bytes
  rw [map_to_notes]
  rw [if_neg (by simp only [MIN_FILE_SIZE]; omega)]
  have hread : read_multi 8 (bytesToBits bytes) =
      some ((bytesToBits bytes).take 8, (bytesToBits bytes).drop 8) := by
    unfold read_multi; rw [if_pos (by omega)]
  obtain ⟨us, heq, hus⟩ :=
    noteLoop_ok f (bytes.length * 8) (bytes.length * 8) 8
      ((bytesToBits bytes).drop 8) [] (by omega)
      (by simp only [List.length_drop]; omega)
  simp only [hread, heq]
  refine ⟨_, rfl, rfl, ?_⟩
  simp only [List.length_nil, Nat.zero_add] at hus
  rw [hus]
  have : bytes.length * 8 - 1 - 8 = 8 * bytes.length - 9 := by omega
  rw [this]

set_option maxRecDepth 4000 in
/-- Packing the 8 bits of a byte read most significant bit first recovers
the byte value. -/
theorem pack_byteToBits (b : Nat) (hb : b < 256) :
    pack_to_byte (byteToBits b) = b := by
  revert b hb
  decide

/-- The first 8 bits of the stream are the bits of the first byte. -/
theorem bytesToBits_take_eight (b : Nat) (bs : List Nat) :
    (bytesToBits (b :: bs)).take 8 = byteToBits b := by
  have h8 : (byteToBits b).length = 8 := rfl
  rw [bytesToBits, List.flatMap_cons, ← h8, List.take_left]

/-- Decoding the 15-byte all-zero file: bpm 120 and six tones, each mapped
from the raw fields (0, 0, 0) by the supplied callback. -/
theorem map_to_notes_zeros (f : Nat → Nat → Nat → Tone) :
    map_to_notes (List.replicate 15 0) f =
      .ok ⟨120, List.replicate 6 (f 0 0 0)⟩ := by
  have hb : bytesToBits (List.replicate 15 0) = List.replicate 120 false := by
    decide
  have hp3 : pack_to_byte (List.replicate 3 false) = 0 := by decide
  have hp4 : pack_to_byte (List.replicate 4 false) = 0 := by decide
  have hp8 : pack_to_byte (List.replicate 8 false) = 0 := by decide
  have hread : read_multi 8 (List.replicate 120 false) =
      some (List.replicate 8 false, List.replicate 112 false) := by
    unfold read_multi
    rw [if_pos (by simp)]
    simp [List.take_replicate, List.drop_replicate]
  have hstep : ∀ n counter units, 15 ≤ n →
      counter + BITS_PER_NOTE ≤ 120 - 1 →
      noteLoop f 120 counter (List.replicate n false) units =
        noteLoop f 120 (counter + BITS_PER_NOTE) (List.replicate (n - 15) false)
          (units ++ [f 0 0 0]) := by
    intro n counter units hn hc
    rw [noteLoop_step f 120 counter _ _ hc (by simp [hn])]
    simp only [List.take_replicate, List.drop_replicate]
    rw [show min 3 n = 3 by omega, show min 4 (n - 3) = 4 by omega,
      show min 8 (n - 7) = 8 by omega, hp3, hp4, hp8]
  rw [map_to_notes]
  simp only [List.length_replicate, hb, hread]
  norm_num [MIN_FILE_SIZE]
  rw [hstep 112 8 [] (by omega) (by simp [BITS_PER_NOTE])]
  rw [hstep 97 _ _ (by omega) (by simp [BITS_PER_NOTE])]
  rw [hstep 82 _ _ (by omega) (by simp [BITS_PER_NOTE])]
  rw [hstep 67 _ _ (by omega) (by simp [BITS_PER_NOTE])]
  rw [hstep 52 _ _ (by omega) (by simp [BITS_PER_NOTE])]
  rw [hstep 37 _ _ (by omega) (by simp [BITS_PER_NOTE])]
  rw [noteLoop_exit _ _ _ _ _ (by simp [BITS_PER_NOTE])]
  simp [bpm_of_raw, List.replicate_succ]
  decide

/-- An or with a one-bit value after an in-range left shift is addition. -/
theorem lor_small : ∀ a < 128, ∀ t ≤ 1, (2 * a) ||| t = 2 * a + t := by
  decide

/-- The pack loop, applied to the reversed buffer with in-range state,
folds the original buffer most significant bit first. -/
theorem packGo_eq_foldl :
    ∀ (fuel : Nat) (r : List Bool) (byte : Nat), r.length ≤ fuel →
      (byte + 1) * 2 ^ r.length ≤ 256 →
      packGo fuel r byte =
        r.reverse.foldl (fun acc b => 2 * acc + b.toNat) byte := by
  intro fuel
  induction fuel with
  | zero =>
    intro r byte hlen _
    have : r = [] := List.length_eq_zero.mp (by omega)
    subst this
    rfl
  | succ m ih =>
    intro r byte hlen hbound
    match r with
    | [] => rfl
    | b :: bs =>
      have hne : b :: bs ≠ [] := List.cons_ne_nil b bs
      have hlen1 : 1 ≤ (b :: bs).length := by simp
      have hbyte : byte < 128 := by
        have h2 : 2 ≤ 2 ^ (b :: bs).length := by
          calc 2 = 2 ^ 1 := rfl
          _ ≤ 2 ^ (b :: bs).length := Nat.pow_le_pow_right (by omega) hlen1
        nlinarith
      have hmod : 2 * byte % 256 = 2 * byte := Nat.mod_eq_of_lt (by omega)
      have htoNat : ((b :: bs).getLast hne).toNat ≤ 1 := by
        cases (b :: bs).getLast hne <;> simp
      rw [packGo, hmod,
        lor_small byte hbyte _ htoNat,
        ih ((b :: bs).dropLast) (2 * byte + ((b :: bs).getLast hne).toNat)
          (by simp [List.length_dropLast] at *; omega)
          (by
            have hdl : (b :: bs).dropLast.length = (b :: bs).length - 1 :=
              List.length_dropLast (b :: bs)
            rw [hdl]
            have hpow : 2 ^ (b :: bs).length =
                2 * 2 ^ ((b :: bs).length - 1) := by
              conv_lhs =>
                rw [show (b :: bs).length = ((b :: bs).length - 1) + 1 by omega]
              rw [pow_succ, Nat.mul_comm]
            rw [hpow] at hbound
            nlinarith)]
      have hsplit : (b :: bs).reverse =
          (b :: bs).getLast hne :: (b :: bs).dropLast.reverse := by
        conv_lhs => rw [← List.dropLast_append_getLast hne]
        rw [List.reverse_append]
        rfl
      rw [hsplit, List.foldl_cons]

/-- The bpm of any successfully decoded melody is bpm_of_raw of some packed
byte. -/
theorem map_to_notes_bpm (bytes : List Nat) (f : Nat → Nat → Nat → Tone)
    (m : Melody) (h : map_to_notes bytes f = .ok m) :
    ∃ raw, m.bpm = bpm_of_raw raw := by
  rw [map_to_notes] at h
  split at h
  · exact absurd h (by simp)
  · split at h
    · exact absurd h (by simp)
    · split at h
      · exact absurd h (by simp)
      · injection h with h
        exact ⟨_, congrArg Melody.bpm h.symm⟩

/-- Claim C1: for every source of exactly 15 bytes (120 bits), decoding
consumes the first 8 bits as the tempo byte and yields only complete note
records, one per full 18-bit stride of the loop counter below
total_bits - 1: exactly (15 * 8 - 8 - 1) / 18 = 6 records, within the
stated bound of 6, each loop iteration advancing the tracked bit offset by
18 although only 3 + 4 + 8 = 15 bits carry payload. -/
theorem c1_fifteen_byte_decode (b : Nat) (bs : List Nat)
    (f : Nat → Nat → Nat → Tone)
    (hlen : (b :: bs).length = 15) (hb : b < 256) :
    ∃ units, map_to_notes (b :: bs) f = .ok ⟨bpm_of_raw b, units⟩ ∧
      units.length = 6 ∧ units.length ≤ 6 ∧ (15 * 8 - 8 - 1) / 18 = 6 := by
  obtain ⟨m, heq, hbpm, hcount⟩ := map_to_notes_ok (b :: bs) f (by omega)
  have hbpm2 : m.bpm = bpm_of_raw b := by
    rw [hbpm, bytesToBits_take_eight, pack_byteToBits b hb]
  have hc6 : m.units.length = 6 := by
    rw [hcount, hlen]
  refine ⟨m.units, ?_, hc6, by omega, by norm_num⟩
  rw [heq]
  congr 1
  rw [← hbpm2]

/-- Witness for claim C1 at the all-zero 15-byte file. -/
theorem c1_fifteen_byte_decode_witness :
    ((0 :: List.replicate 14 (0 : Nat)).length = 15 ∧ (0 : Nat) < 256) ∧
      ∃ units, map_to_notes (0 :: List.replicate 14 0) c_major =
          .ok ⟨bpm_of_raw 0, units⟩ ∧
        units.length = 6 ∧ units.length ≤ 6 ∧ (15 * 8 - 8 - 1) / 18 = 6 :=
  ⟨⟨by decide, by decide⟩,
    c1_fifteen_byte_decode 0 (List.replicate 14 0) c_major (by decide) (by decide)⟩

/-- Claim C2: for every raw tempo byte, bpm_of_raw - the tempo computation
of the decoder - equals raw % 120 + 120, lies in the interval from 120 to
239, and is never zero; the raw byte 255 yields 135, and every successfully
decoded melody has its bpm in that interval. -/
theorem c2_bpm_range (raw : Nat) (h : raw < 256) :
    bpm_of_raw raw = raw % 120 + 120 ∧
      120 ≤ bpm_of_raw raw ∧ bpm_of_raw raw ≤ 239 ∧ bpm_of_raw raw ≠ 0 ∧
      bpm_of_raw 255 = 135 ∧
      ∀ (bytes : List Nat) (f : Nat → Nat → Nat → Tone) (m : Melody),
        map_to_notes bytes f = .ok m → 120 ≤ m.bpm ∧ m.bpm ≤ 239 := by
  refine ⟨rfl, ?_, ?_, ?_, by decide, ?_⟩
  · simp [bpm_of_raw]
  · have : raw % 120 < 120 := Nat.mod_lt raw (by omega)
    simp only [bpm_of_raw]
    omega
  · simp [bpm_of_raw]
  · intro bytes f m hm
    obtain ⟨r, hr⟩ := map_to_notes_bpm bytes f m hm
    have : r % 120 < 120 := Nat.mod_lt r (by omega)
    rw [hr]
    simp only [bpm_of_raw]
    omega

/-- Witness for claim C2 at the raw byte 255. -/
theorem c2_bpm_range_witness :
    (255 : Nat) < 256 ∧
      (bpm_of_raw 255 = 255 % 120 + 120 ∧
        120 ≤ bpm_of_raw 255 ∧ bpm_of_raw 255 ≤ 239 ∧ bpm_of_raw 255 ≠ 0 ∧
        bpm_of_raw 255 = 135 ∧
        ∀ (bytes : List Nat) (f : Nat → Nat → Nat → Tone) (m : Melody),
          map_to_notes bytes f = .ok m → 120 ≤ m.bpm ∧ m.bpm ≤ 239) :=
  ⟨by decide, c2_bpm_range 255 (by decide)⟩

/-- Claim C6: for every multi-bit field read of at most 8 bits, the
read-oldest-first, reverse, pop-and-shift packing of the source equals the
big-endian interpretation of the bits in stream order, the first bit read
being the most significant. -/
theorem c6_pack_big_endian (bits : List Bool) (h : bits.length ≤ 8) :
    pack_to_byte bits = big_endian_val bits := by
  rw [pack_to_byte,
    packGo_eq_foldl 8 bits.reverse 0 (by simpa using h)
      (by
        simp only [Nat.zero_add, Nat.one_mul, List.length_reverse]
        calc (2 : Nat) ^ bits.length ≤ 2 ^ 8 :=
              Nat.pow_le_pow_right (by omega) h
          _ = 256 := by norm_num),
    List.reverse_reverse]
  rfl

/-- Witness for claim C6 at a three-bit field. -/
theorem c6_pack_big_endian_witness :
    [true, false, true].length ≤ 8 ∧
      pack_to_byte [true, false, true] = big_endian_val [true, false, true] :=
  ⟨by decide, c6_pack_big_endian [true, false, true] (by decide)⟩

/-- Claim C7: every file smaller than 15 bytes fails with FileTooSmall
before any bit is read, and no file of at least 15 bytes produces that
error. -/
theorem c7_file_too_small (bytes : List Nat) (f : Nat → Nat → Nat → Tone) :
    (bytes.length < 15 → map_to_notes bytes f = .error .FileTooSmall) ∧
      (15 ≤ bytes.length → map_to_notes bytes f ≠ .error .FileTooSmall) := by
  constructor
  · intro h
    rw [map_to_notes]
    rw [if_pos (by simp only [MIN_FILE_SIZE]; omega)]
  · intro h
    obtain ⟨m, heq, _, _⟩ := map_to_notes_ok bytes f h
    rw [heq]
    simp

/-- Witness for claim C7 at a 14-byte and a 15-byte file. -/
theorem c7_file_too_small_witness :
    ((List.replicate 14 (0 : Nat)).length < 15 ∧
      map_to_notes (List.replicate 14 0) c_major = .error .FileTooSmall) ∧
      (15 ≤ (List.replicate 15 (0 : Nat)).length ∧
        map_to_notes (List.replicate 15 0) c_major ≠ .error .FileTooSmall) :=
  ⟨⟨by decide,
      (c7_file_too_small (List.replicate 14 0) c_major).1 (by decide)⟩,
    ⟨by decide,
      (c7_file_too_small (List.replicate 15 0) c_major).2 (by decide)⟩⟩

/-- The direct table lookup agrees with Duration.fromRaw below 9. -/
theorem fromRaw_small (d : Nat) (hd : d < 9) :
    Duration.fromRaw d =
      durationTable.get ⟨d, by simpa [durationTable] using hd⟩ := by
  interval_cases d <;> simp [Duration.fromRaw, durationTable] <;> decide

/-- Claim C8: for every u8 raw duration value, the recursive modulo-9
conversion terminates (it is a total function) and equals the direct lookup
in the nine-entry table indexed by raw % 9. -/
theorem c8_duration_table (d : Nat) (hd : d < 256) :
    Duration.fromRaw d =
      durationTable.get
        ⟨d % 9, by simpa [durationTable] using Nat.mod_lt d (by omega)⟩ := by
  rcases Nat.lt_or_ge d 9 with h9 | h9
  · rw [fromRaw_small d h9]
    congr 1
    exact (Fin.val_eq_val _ _).mp (Nat.mod_eq_of_lt h9).symm
  · obtain ⟨n, rfl⟩ : ∃ n, d = n + 9 := ⟨d - 9, by omega⟩
    have hstep : Duration.fromRaw (n + 9) = Duration.fromRaw ((n + 9) % 9) := by
      conv_lhs => rw [Duration.fromRaw]
    rw [hstep, fromRaw_small ((n + 9) % 9) (Nat.mod_lt _ (by omega))]

/-- Witness for claim C8 at the raw value 200, whose residue is 2. -/
theorem c8_duration_table_witness :
    (200 : Nat) < 256 ∧
      Duration.fromRaw 200 =
        durationTable.get
          ⟨200 % 9, by simpa [durationTable] using Nat.mod_lt 200 (by omega)⟩ :=
  ⟨by decide, c8_duration_table 200 (by decide)⟩

/-- Claim C10: decoding any file of n bytes with n at least 15 succeeds and
yields exactly (8 * n - 9) / 18 tones, hence at least 6 and never none. -/
theorem c10_unit_count (bytes : List Nat) (f : Nat → Nat → Nat → Tone)
    (h : 15 ≤ bytes.length) :
    ∃ m, map_to_notes bytes f = .ok m ∧
      m.units.length = (8 * bytes.length - 9) / 18 ∧
      6 ≤ m.units.length ∧ m.units ≠ [] := by
  obtain ⟨m, heq, _, hcount⟩ := map_to_notes_ok bytes f h
  refine ⟨m, heq, hcount, ?_, ?_⟩
  · rw [hcount]
    omega
  · intro hnil
    have h0 : m.units.length = 0 := by rw [hnil]; rfl
    rw [hcount] at h0
    omega

/-- Witness for claim C10 at a 16-byte file. -/
theorem c10_unit_count_witness :
    15 ≤ (List.replicate 16 (0 : Nat)).length ∧
      ∃ m, map_to_notes (List.replicate 16 0) c_major = .ok m ∧
        m.units.length = (8 * (List.replicate 16 (0 : Nat)).length - 9) / 18 ∧
        6 ≤ m.units.length ∧ m.units ≠ [] :=
  ⟨by decide, c10_unit_count (List.replicate 16 0) c_major (by decide)⟩

/-- Counterexample to claim C3: decoding the 15-byte all-zero file through
the supplied c_major callback yields tones whose duration is not Double,
because Tone::new selects the duration by dur % 4 from Half, Quarter,
Eighth, Sixteenth and never consults the Duration-from-u8 conversion. -/
theorem c3_zero_file_counterexample :
    ∃ m, map_to_notes (List.replicate 15 0) c_major = .ok m ∧
      ∃ t ∈ m.units, t.duration ≠ Duration.Double := by
  refine ⟨⟨120, List.replicate 6 (c_major 0 0 0)⟩, map_to_notes_zeros c_major,
    c_major 0 0 0, by simp, ?_⟩
  have hdur : (c_major 0 0 0).duration = Duration.Half := rfl
  rw [hdur]
  decide

/-- Claim C3 as amended: decoding the 15-byte all-zero file yields bpm 120
and six note records with raw fields (0, 0, 0) - visible through the
injective rawProbe callback - and through the supplied c_major callback
every resulting tone has volume 0.0 and duration Half, the category that
Tone::new assigns to the raw duration 0 (not Double). -/
theorem c3_zero_file_amended :
    map_to_notes (List.replicate 15 0) rawProbe =
        .ok ⟨120, List.replicate 6 (rawProbe 0 0 0)⟩ ∧
      ∃ m, map_to_notes (List.replicate 15 0) c_major = .ok m ∧
        m.bpm = 120 ∧ m.units.length = 6 ∧
        ∀ t ∈ m.units, t.volume = 0 ∧ t.duration = Duration.Half := by
  refine ⟨map_to_notes_zeros rawProbe,
    ⟨120, List.replicate 6 (c_major 0 0 0)⟩, map_to_notes_zeros c_major,
    rfl, by simp, ?_⟩
  intro t ht
  rw [List.eq_of_mem_replicate ht]
  constructor
  · simp [c_major, Tone.new]
  · rfl

/-- Counterexample to claim C4: at bpm 121 the quarter-note sample count is
the truncation 21867 of 60 / 121 * 1 * 44100 = 21867.768..., not the
rounding 21868 the claim states. -/
theorem c4_round_counterexample :
    (write_tone_samples 121 ⟨60, Duration.Quarter, 0, 0⟩).length ≠
      (round_spec (60 / (121 : ℚ) * beats Duration.Quarter * 44100)).toNat := by
  have hlen : (write_tone_samples 121 ⟨60, Duration.Quarter, 0, 0⟩).length =
      time_calc 121 Duration.Quarter := by
    simp only [write_tone_samples, List.length_map, List.length_range]
  have h1 : time_calc 121 Duration.Quarter = 21867 := by
    rw [time_calc]
    rw [show ⌊60 / ((121 : Nat) : ℚ) * beats Duration.Quarter *
        ((SAMPLING_RATE : Nat) : ℚ)⌋ = 21867 from ?_]
    · rfl
    · rw [Int.floor_eq_iff]
      constructor
      · norm_num [beats, SAMPLING_RATE]
      · norm_num [beats, SAMPLING_RATE]
  have h2 : round_spec (60 / (121 : ℚ) * beats Duration.Quarter * 44100) =
      21868 := by
    rw [round_spec, Int.floor_eq_iff]
    constructor
    · norm_num [beats]
    · norm_num [beats]
  rw [hlen, h1, h2]
  decide

/-- Claim C4 as amended: for every tone and positive bpm the number of
samples generated equals the truncation (not the rounding) of
secondsPerBeat * beatMultiplier * sampleRate with secondsPerBeat = 60 /
bpm and sampleRate = 44100, and the beat multiplier table is Double 8,
Whole 4, Half 2, Quarter 1, Eighth 0.5, Sixteenth 0.25, ThirtySecond
0.125, SixtyFourth 0.0625, HundredTwentyEighth 0.03125. -/
theorem c4_sample_count_amended (bpm : Nat) (tone : Tone) (h : 0 < bpm) :
    (write_tone_samples bpm tone).length =
        (⌊60 / (bpm : ℚ) * beats tone.duration * 44100⌋).toNat ∧
      beats .Double = 8 ∧ beats .Whole = 4 ∧ beats .Half = 2 ∧
      beats .Quarter = 1 ∧ beats .Eighth = 1 / 2 ∧
      beats .Sixteenth = 1 / 4 ∧ beats .ThirtySecond = 1 / 8 ∧
      beats .SixtyFourth = 1 / 16 ∧ beats .HundredTwentyEighth = 1 / 32 := by
  refine ⟨?_, rfl, rfl, rfl, rfl, rfl, rfl, rfl, rfl, rfl⟩
  simp only [write_tone_samples, List.length_map, List.length_range,
    time_calc, SAMPLING_RATE, Nat.cast_ofNat]

/-- Witness for the amended claim C4 at bpm 120 and a half note. -/
theorem c4_sample_count_amended_witness :
    0 < 120 ∧
      (write_tone_samples 120 ⟨60, Duration.Half, 0, 0⟩).length =
        (⌊60 / (120 : ℚ) * beats Duration.Half * 44100⌋).toNat :=
  ⟨by decide,
    (c4_sample_count_amended 120 ⟨60, Duration.Half, 0, 0⟩ (by decide)).1⟩

/-- Claim C5: every constructed tone has frequency 400 * 2 ^ ((p - 69) /
12); pitch 69 gives exactly 400 Hz, pitch 81 gives 800 Hz and pitch 57
gives 200 Hz. -/
theorem c5_frequency_formula :
    (∀ p d v : Nat,
        (Tone.new p d v).frequency = 400 * (2 : ℝ) ^ (((p : ℝ) - 69) / 12)) ∧
      frequency_of 69 = 400 ∧ frequency_of 81 = 800 ∧ frequency_of 57 = 200 := by
  refine ⟨fun p d v => rfl, ?_, ?_, ?_⟩
  · simp [frequency_of, BASE_FREQUENCY, BASE_PITCH]
  · rw [frequency_of, BASE_FREQUENCY, BASE_PITCH]
    rw [show (((81 : Nat) : ℝ) - 69) / 12 = 1 by norm_num]
    rw [Real.rpow_one]
    norm_num
  · rw [frequency_of, BASE_FREQUENCY, BASE_PITCH]
    rw [show (((57 : Nat) : ℝ) - 69) / 12 = -1 by norm_num]
    rw [Real.rpow_neg_one]
    norm_num

/-- Claim C9: the arduino frequency list never has more than 100 entries,
and for a melody of exactly 3 tones it has exactly 3 entries, the Hz value
of each tone in melody order. -/
theorem c9_arduino_cap (m : Melody) :
    (write_for_arduino_freqs m).length ≤ 100 ∧
      (m.units.length = 3 →
        write_for_arduino_freqs m =
          [f32_as_u32 (m.units.getD 0 default).frequency,
           f32_as_u32 (m.units.getD 1 default).frequency,
           f32_as_u32 (m.units.getD 2 default).frequency]) := by
  have hlen : (write_for_arduino_freqs m).length =
      if m.units.length ≤ 100 then m.units.length else 100 := by
    simp only [write_for_arduino_freqs, List.length_map, List.length_range]
  constructor
  · rw [hlen]
    split <;> omega
  · intro h3
    rw [write_for_arduino_freqs]
    rw [h3, if_pos (by omega), show List.range 3 = [0, 1, 2] from rfl]
    rfl

/-- Witness for claim C9 at a three-tone melody. -/
theorem c9_arduino_cap_witness :
    (Melody.mk 120 [⟨60, Duration.Half, 0, 0⟩, ⟨62, Duration.Quarter, 0, 0⟩,
        ⟨64, Duration.Eighth, 0, 0⟩]).units.length = 3 ∧
      (write_for_arduino_freqs
          (Melody.mk 120 [⟨60, Duration.Half, 0, 0⟩, ⟨62, Duration.Quarter, 0, 0⟩,
            ⟨64, Duration.Eighth, 0, 0⟩])).length ≤ 100 ∧
      write_for_arduino_freqs
          (Melody.mk 120 [⟨60, Duration.Half, 0, 0⟩, ⟨62, Duration.Quarter, 0, 0⟩,
            ⟨64, Duration.Eighth, 0, 0⟩]) =
        [f32_as_u32 (((Melody.mk 120 [⟨60, Duration.Half, 0, 0⟩,
            ⟨62, Duration.Quarter, 0, 0⟩, ⟨64, Duration.Eighth, 0, 0⟩]).units.getD 0
              default).frequency),
         f32_as_u32 (((Melody.mk 120 [⟨60, Duration.Half, 0, 0⟩,
            ⟨62, Duration.Quarter, 0, 0⟩, ⟨64, Duration.Eighth, 0, 0⟩]).units.getD 1
              default).frequency),
         f32_as_u32 (((Melody.mk 120 [⟨60, Duration.Half, 0, 0⟩,
            ⟨62, Duration.Quarter, 0, 0⟩, ⟨64, Duration.Eighth, 0, 0⟩]).units.getD 2
              default).frequency)] :=
  ⟨by simp,
    (c9_arduino_cap _).1,
    (c9_arduino_cap _).2 (by simp)⟩

end Musicbytes
